import Mathlib

/-!
Verification of the deserialization core of the uproot package.

The package root (`src/uproot/__init__.py`) re-exports the core components
(`Cursor`, `LRUCache`, compression codecs, the model/streamer machinery) and
defines `behavior_of`.  The components themselves live in submodules that are
not part of src/, so they are modelled here from the words of the spec;
`behavior_of` is embedded directly from the source.
-/

namespace Uproot

/-- A byte buffer: bytes as natural numbers. -/
abbrev Buffer := List Nat

/-! ## Cursor (spec 4.3) -/

/-- Modelled from the spec: the `Cursor`, "a position-tracking reader over an
in-memory byte buffer" (spec sections 2 and 4.3); the implementation
(`uproot.source.cursor.Cursor`) is absent from src/, which only re-exports it.
Only the position is state; the buffer is supplied at each read. -/
structure Cursor where
  pos : Nat
deriving Repr, DecidableEq

/-- Modelled from the spec: the typed overrun error of spec 4.3, "naming the
offset and requested length versus available length". -/
structure OverrunError where
  offset : Nat
  requested : Nat
  available : Nat
deriving Repr, DecidableEq

/-- Modelled from the spec: a raw byte-span read (spec 4.3): reading `k` bytes
from position `p` in a buffer of length `L` succeeds iff `p + k ≤ L`,
otherwise the typed overrun error reporting `p`, `k` and `L` is raised. -/
def Cursor.readBytes (c : Cursor) (buf : Buffer) (k : Nat) :
    Except OverrunError (Buffer × Cursor) :=
  if c.pos + k ≤ buf.length then
    .ok ((buf.drop c.pos).take k, ⟨c.pos + k⟩)
  else
    .error ⟨c.pos, k, buf.length⟩

/-- C3: a Cursor read of `k` bytes from position `p` in a buffer of length `L`
succeeds if and only if `p + k ≤ L`; otherwise the typed overrun error
reporting `p`, `k` and `L` is raised. -/
theorem cursor_read_bounds (p k : Nat) (buf : Buffer) :
    ((Cursor.readBytes ⟨p⟩ buf k).isOk ↔ p + k ≤ buf.length) ∧
    (buf.length < p + k →
      Cursor.readBytes ⟨p⟩ buf k = .error ⟨p, k, buf.length⟩) := by
  by_cases h : p + k ≤ buf.length
  · exact ⟨by simp [Cursor.readBytes, h, Except.isOk, Except.toBool], fun hlt => by omega⟩
  · exact ⟨by simp [Cursor.readBytes, h, Except.isOk, Except.toBool],
      fun _ => by simp [Cursor.readBytes, h]⟩

/-- Witness for C3 at a concrete overrunning input. -/
theorem cursor_read_bounds_witness :
    Cursor.readBytes ⟨2⟩ [10, 11, 12, 13] 3 = .error ⟨2, 3, 4⟩ :=
  (cursor_read_bounds 2 3 [10, 11, 12, 13]).2 (by decide)

/-! ## EvictionCache (spec 4.2) -/

/-- Modelled from the spec: a resident cache entry "(key, value, size-cost,
recency marker)" (spec 3); the recency marker is the time of last access,
kept next to the insertion time for the tie-break of spec 4.2.  The claim is
about the entry-count capacity mode, so every entry costs 1 and the size-cost
field is omitted.  The implementation (`uproot.cache.LRUCache`) is absent
from src/, which only re-exports it. -/
structure CacheEntry (α β : Type) where
  key : α
  value : β
  lastAccess : Nat
  insertedAt : Nat
deriving Repr, DecidableEq

/-- Modelled from the spec: `e` is at most as recent as `f` in the eviction
order of spec 4.2, "strict least-recently-used by last-access order; ties
broken by insertion order (oldest inserted evicted first)". -/
abbrev CacheEntry.olderEq {α β : Type} (e f : CacheEntry α β) : Prop :=
  e.lastAccess < f.lastAccess ∨
    (e.lastAccess = f.lastAccess ∧ e.insertedAt ≤ f.insertedAt)

/-- Modelled from the spec: the eviction victim among resident entries, "the
one with the oldest recency marker among residents" (spec 8), computed as the
minimum in the order of spec 4.2. -/
def lruVictim {α β : Type} (e : CacheEntry α β) :
    List (CacheEntry α β) → CacheEntry α β
  | [] => e
  | f :: rest => lruVictim (if f.olderEq e then f else e) rest

/-- Modelled from the spec: the LRU cache state: capacity (entry count), a
logical clock stamping accesses and insertions, and the resident entries. -/
structure EvictionCache (α β : Type) where
  capacity : Nat
  clock : Nat
  entries : List (CacheEntry α β)

/-- Modelled from the spec: "exceeding either [bound] triggers eviction down
to the bound" (spec 4.2): repeatedly remove the LRU victim while the resident
count exceeds the capacity.  The fuel is the entry count at entry, an upper
bound on the number of evictions needed. -/
def evictLoop {α β : Type} [DecidableEq α] (cap : Nat) :
    Nat → List (CacheEntry α β) → List (CacheEntry α β)
  | 0, entries => entries
  | _ + 1, [] => []
  | fuel + 1, e :: rest =>
    if cap < (e :: rest).length then
      evictLoop cap fuel
        ((e :: rest).eraseP (fun f => f.key == (lruVictim e rest).key))
    else e :: rest

/-- Modelled from the spec: `get_or_compute(key, compute_fn)` (spec 4.2): on a
hit the recency marker is "updated on every successful lookup hit" (spec 3);
on a miss the computed value is inserted and eviction runs down to the
capacity bound. -/
def EvictionCache.getOrCompute {α β : Type} [DecidableEq α]
    (c : EvictionCache α β) (k : α) (computeFn : Unit → β) :
    β × EvictionCache α β :=
  match c.entries.find? (fun e => e.key == k) with
  | some e =>
      (e.value,
        { c with
          clock := c.clock + 1
          entries := c.entries.map
            (fun f => if f.key == k then { f with lastAccess := c.clock } else f) })
  | none =>
      let v := computeFn ()
      let inserted : List (CacheEntry α β) :=
        ⟨k, v, c.clock, c.clock⟩ :: c.entries
      (v, { c with
            clock := c.clock + 1
            entries := evictLoop c.capacity inserted.length inserted })

/-- Modelled from the spec: the empty cache with the given entry-count
capacity. -/
def EvictionCache.empty {α β : Type} (cap : Nat) : EvictionCache α β :=
  ⟨cap, 0, []⟩

/-- Modelled from the spec: a whole sequence of `get_or_compute` calls run
against an initially empty cache. -/
def runOps {α β : Type} [DecidableEq α] (cap : Nat)
    (ops : List (α × (Unit → β))) : EvictionCache α β :=
  ops.foldl (fun c op => (c.getOrCompute op.1 op.2).2) (EvictionCache.empty cap)

theorem olderEq_refl {α β : Type} (a : CacheEntry α β) : a.olderEq a :=
  Or.inr ⟨rfl, Nat.le_refl _⟩

theorem olderEq_trans {α β : Type} {a b c : CacheEntry α β}
    (hab : a.olderEq b) (hbc : b.olderEq c) : a.olderEq c := by
  unfold CacheEntry.olderEq at *; omega

theorem olderEq_total {α β : Type} (a b : CacheEntry α β)
    (h : ¬ a.olderEq b) : b.olderEq a := by
  unfold CacheEntry.olderEq at *; omega

theorem lruVictim_mem {α β : Type} (rest : List (CacheEntry α β)) :
    ∀ e, lruVictim e rest ∈ e :: rest := by
  induction rest with
  | nil => intro e; simp [lruVictim]
  | cons f rest ih =>
      intro e
      have hstep : lruVictim e (f :: rest) =
          lruVictim (if f.olderEq e then f else e) rest := rfl
      rw [hstep]
      by_cases hfe : f.olderEq e
      · rw [if_pos hfe]
        exact List.mem_cons_of_mem e (ih f)
      · rw [if_neg hfe]
        rcases List.mem_cons.mp (ih e) with h1 | h2
        · rw [h1]; exact List.mem_cons_self e (f :: rest)
        · exact List.mem_cons_of_mem _ (List.mem_cons_of_mem f h2)

theorem lruVictim_olderEq {α β : Type} (rest : List (CacheEntry α β)) :
    ∀ e, ∀ g ∈ e :: rest, (lruVictim e rest).olderEq g := by
  induction rest with
  | nil =>
      intro e g hg
      simp at hg
      rw [hg]
      exact olderEq_refl e
  | cons f rest ih =>
      intro e g hg
      have hstep : lruVictim e (f :: rest) =
          lruVictim (if f.olderEq e then f else e) rest := rfl
      set m := if f.olderEq e then f else e with hm
      have hvm : (lruVictim m rest).olderEq m := ih m m (by simp)
      have hme : m.olderEq e := by
        by_cases hfe : f.olderEq e
        · rw [hm, if_pos hfe]; exact hfe
        · rw [hm, if_neg hfe]; exact olderEq_refl e
      have hmf : m.olderEq f := by
        by_cases hfe : f.olderEq e
        · rw [hm, if_pos hfe]; exact olderEq_refl f
        · rw [hm, if_neg hfe]; exact olderEq_total f e hfe
      rw [hstep]
      rcases List.mem_cons.mp hg with hge | hg2
      · rw [hge]; exact olderEq_trans hvm hme
      · rcases List.mem_cons.mp hg2 with hgf | hgrest
        · rw [hgf]; exact olderEq_trans hvm hmf
        · exact ih m g (List.mem_cons_of_mem m hgrest)

theorem evictLoop_length_le {α β : Type} [DecidableEq α] (cap : Nat) :
    ∀ (fuel : Nat) (entries : List (CacheEntry α β)),
      entries.length ≤ cap + fuel →
      (evictLoop cap fuel entries).length ≤ cap := by
  intro fuel
  induction fuel with
  | zero => intro entries h; simpa [evictLoop] using h
  | succ n ih =>
      intro entries h
      match entries with
      | [] => simp [evictLoop]
      | e :: rest =>
          rw [evictLoop]
          split
          next hlt =>
            apply ih
            have hmem := lruVictim_mem rest e
            have hlen := List.length_eraseP_add_one
              (p := fun f => f.key == (lruVictim e rest).key) hmem (by simp)
            omega
          next hlt => omega

theorem getOrCompute_length_le {α β : Type} [DecidableEq α]
    (c : EvictionCache α β) (k : α) (f : Unit → β)
    (h : c.entries.length ≤ c.capacity) :
    ((c.getOrCompute k f).2).entries.length ≤ ((c.getOrCompute k f).2).capacity := by
  unfold EvictionCache.getOrCompute
  cases hfind : c.entries.find? (fun e => e.key == k) with
  | some e => simpa using h
  | none =>
      dsimp only
      exact evictLoop_length_le c.capacity _ _ (Nat.le_add_left _ _)

theorem getOrCompute_capacity {α β : Type} [DecidableEq α]
    (c : EvictionCache α β) (k : α) (f : Unit → β) :
    ((c.getOrCompute k f).2).capacity = c.capacity := by
  unfold EvictionCache.getOrCompute
  cases c.entries.find? (fun e => e.key == k) <;> rfl

theorem foldl_getOrCompute_length_le {α β : Type} [DecidableEq α]
    (ops : List (α × (Unit → β))) :
    ∀ (c : EvictionCache α β), c.entries.length ≤ c.capacity →
      (ops.foldl (fun c op => (c.getOrCompute op.1 op.2).2) c).entries.length ≤
        (ops.foldl (fun c op => (c.getOrCompute op.1 op.2).2) c).capacity := by
  induction ops with
  | nil => intro c h; simpa using h
  | cons op ops ih =>
      intro c h
      rw [List.foldl_cons]
      exact ih _ (getOrCompute_length_le c op.1 op.2 h)

theorem foldl_getOrCompute_capacity {α β : Type} [DecidableEq α]
    (ops : List (α × (Unit → β))) :
    ∀ (c : EvictionCache α β),
      (ops.foldl (fun c op => (c.getOrCompute op.1 op.2).2) c).capacity =
        c.capacity := by
  induction ops with
  | nil => intro c; rfl
  | cons op ops ih =>
      intro c
      rw [List.foldl_cons, ih, getOrCompute_capacity]

/-- C4: for every sequence of `get_or_compute` calls against a cache of
entry-count capacity C, the resident entry count never exceeds C, and the
eviction victim is always a resident entry that is least-recently-used by
last access, ties broken by oldest insertion. -/
theorem cache_lru_correct {α β : Type} [DecidableEq α] :
    (∀ (cap : Nat) (ops : List (α × (Unit → β))),
        (runOps cap ops).entries.length ≤ cap) ∧
    (∀ (e : CacheEntry α β) (rest : List (CacheEntry α β)),
        lruVictim e rest ∈ e :: rest ∧
        ∀ g ∈ e :: rest, (lruVictim e rest).olderEq g) := by
  constructor
  · intro cap ops
    have h1 := foldl_getOrCompute_length_le ops (EvictionCache.empty cap)
      (by simp [EvictionCache.empty])
    have h2 := foldl_getOrCompute_capacity ops (EvictionCache.empty (β := β) cap)
    rw [runOps]
    exact le_of_le_of_eq h1 h2
  · intro e rest
    exact ⟨lruVictim_mem rest e, lruVictim_olderEq rest e⟩

/-- Witness for C4 at concrete inputs: three insertions into a capacity-2
cache stay within the bound, and the victim among two concrete entries is the
least recently accessed one. -/
theorem cache_lru_correct_witness :
    (runOps (α := Nat) (β := Nat) 2
        [(1, fun _ => 10), (2, fun _ => 20), (3, fun _ => 30)]).entries.length ≤ 2 ∧
    (lruVictim (⟨1, 10, 5, 0⟩ : CacheEntry Nat Nat) [⟨2, 20, 3, 1⟩]).olderEq
      ⟨2, 20, 3, 1⟩ :=
  ⟨cache_lru_correct.1 2 [(1, fun _ => 10), (2, fun _ => 20), (3, fun _ => 30)],
   (cache_lru_correct.2 ⟨1, 10, 5, 0⟩ [⟨2, 20, 3, 1⟩]).2 ⟨2, 20, 3, 1⟩ (by simp)⟩

/-! ## CompressionFraming (spec 4.4) -/

/-- Modelled from the spec: a pluggable codec, "a stable
`decompress(bytes, expected_size) -> bytes` contract per named algorithm tag"
(spec 6), together with the compressor the writer used.  The concrete codecs
(`uproot.compression.ZLIB` etc.) are absent from src/, which only re-exports
them. -/
structure Codec where
  compress : Buffer → Buffer
  decompress : Buffer → Nat → Buffer

/-- Modelled from the spec: the explicit "no compression" algorithm tag whose
blocks are a fast pass-through (spec 4.4). -/
def noneTag : Nat := 0

/-- Modelled from the spec: fatal decode errors of the framing layer
(spec 4.4 and 7): an unregistered algorithm tag, a decompressed size that
differs from the declared uncompressed size, and a truncated stream. -/
inductive CodecError where
  | unregisteredTag (tag : Nat)
  | sizeMismatch (declared actual : Nat)
  | truncated
deriving Repr, DecidableEq

/-- Modelled from the spec: the block iteration of
`decompress(raw) -> bytes` (spec 4.4): parse one
`CompressionBlockHeader`+payload segment (header abstracted as three words:
algorithm tag, compressed size, uncompressed size), dispatch to the codec
registered under the tag — pass-through for the "no compression" tag, fatal
error for an unregistered tag, fatal error when the decompressed size differs
from the declared uncompressed size — and continue on the remaining bytes.
Fuel-based recursion; the raw length bounds the number of blocks.

First, the dispatch for a single block (spec 4.4): pass-through for the
"no compression" tag, fatal error for an unregistered tag, fatal error when
the decompressed size differs from the declared uncompressed size. -/
def decodeBlock (registry : List (Nat × Codec)) (tag usize : Nat)
    (payload : Buffer) : Except CodecError Buffer :=
  if tag = noneTag then .ok payload
  else
    match registry.lookup tag with
    | some codec =>
        if (codec.decompress payload usize).length = usize then
          .ok (codec.decompress payload usize)
        else .error (.sizeMismatch usize (codec.decompress payload usize).length)
    | none => .error (.unregisteredTag tag)

def decompressLoop (registry : List (Nat × Codec)) :
    Nat → Buffer → Except CodecError Buffer
  | _, [] => .ok []
  | 0, _ :: _ => .error .truncated
  | fuel + 1, tag :: csize :: usize :: rest =>
    if csize ≤ rest.length then
      match decodeBlock registry tag usize (rest.take csize) with
      | .error e => .error e
      | .ok out =>
          match decompressLoop registry fuel (rest.drop csize) with
          | .error e => .error e
          | .ok outRest => .ok (out ++ outRest)
    else .error .truncated
  | _ + 1, _ => .error .truncated

/-- Modelled from the spec: `CompressionFraming.decompress` (spec 4.4),
iterating the blocks of the raw stream. -/
def CompressionFraming.decompress (registry : List (Nat × Codec))
    (raw : Buffer) : Except CodecError Buffer :=
  decompressLoop registry raw.length raw

/-- Modelled from the spec: the framed serialization of one block: the header
(algorithm tag, compressed size, declared uncompressed size) followed by the
compressed payload (spec 3). -/
def frameBlock (tag : Nat) (codec : Codec) (piece : Buffer) : Buffer :=
  tag :: (codec.compress piece).length :: piece.length :: codec.compress piece

/-- Modelled from the spec: a payload "compressed by a registered codec into
one or more framed blocks" (spec 8): each piece of the payload is compressed
and framed, and the frames are concatenated. -/
def frame (tag : Nat) (codec : Codec) (pieces : List Buffer) : Buffer :=
  (pieces.map (frameBlock tag codec)).flatten

/-- Modelled from the spec: the declared uncompressed sizes carried by the
successive block headers of a framed stream. -/
def declaredSizes : Nat → Buffer → List Nat
  | _, [] => []
  | 0, _ :: _ => []
  | fuel + 1, _ :: csize :: usize :: rest => usize :: declaredSizes fuel (rest.drop csize)
  | _ + 1, _ => []

theorem decompressLoop_frame (registry : List (Nat × Codec)) (tag : Nat)
    (codec : Codec) (hreg : registry.lookup tag = some codec)
    (hne : tag ≠ noneTag) :
    ∀ (pieces : List Buffer) (fuel : Nat),
      (frame tag codec pieces).length ≤ fuel →
      (∀ piece ∈ pieces,
        codec.decompress (codec.compress piece) piece.length = piece) →
      decompressLoop registry fuel (frame tag codec pieces) =
        .ok pieces.flatten := by
  intro pieces
  induction pieces with
  | nil =>
      intro fuel _ _
      simp [frame, decompressLoop]
  | cons piece pieces ih =>
      intro fuel hfuel hrt
      have hframe : frame tag codec (piece :: pieces) =
          tag :: (codec.compress piece).length :: piece.length ::
            (codec.compress piece ++ frame tag codec pieces) := by
        simp [frame, frameBlock]
      rw [hframe] at hfuel ⊢
      match fuel with
      | 0 => simp at hfuel
      | f + 1 =>
          rw [decompressLoop]
          rw [if_pos (by simp)]
          rw [List.take_left, List.drop_left]
          have hblock : decodeBlock registry tag piece.length
              (codec.compress piece) = .ok piece := by
            rw [decodeBlock, if_neg hne, hreg]
            dsimp only
            rw [hrt piece (List.mem_cons_self piece pieces), if_pos rfl]
          rw [hblock]
          rw [ih f (by simp at hfuel; omega)
            (fun q hq => hrt q (List.mem_cons_of_mem piece hq))]
          simp

theorem declaredSizes_frame (tag : Nat) (codec : Codec) :
    ∀ (pieces : List Buffer) (fuel : Nat),
      (frame tag codec pieces).length ≤ fuel →
      declaredSizes fuel (frame tag codec pieces) = pieces.map List.length := by
  intro pieces
  induction pieces with
  | nil => intro fuel _; simp [frame, declaredSizes]
  | cons piece pieces ih =>
      intro fuel hfuel
      have hframe : frame tag codec (piece :: pieces) =
          tag :: (codec.compress piece).length :: piece.length ::
            (codec.compress piece ++ frame tag codec pieces) := by
        simp [frame, frameBlock]
      rw [hframe] at hfuel ⊢
      match fuel with
      | 0 => simp at hfuel
      | f + 1 =>
          rw [declaredSizes, List.drop_left]
          rw [ih f (by simp at hfuel; omega)]
          simp

/-- C5: a payload compressed by a registered codec into one or more framed
blocks is reproduced exactly by `CompressionFraming.decompress`, and the sum
of the declared uncompressed sizes across the blocks equals the length of the
output. -/
theorem compression_round_trip (registry : List (Nat × Codec)) (tag : Nat)
    (codec : Codec) (pieces : List Buffer)
    (hreg : registry.lookup tag = some codec) (hne : tag ≠ noneTag)
    (hrt : ∀ piece ∈ pieces,
      codec.decompress (codec.compress piece) piece.length = piece) :
    CompressionFraming.decompress registry (frame tag codec pieces) =
      .ok pieces.flatten ∧
    (declaredSizes (frame tag codec pieces).length
        (frame tag codec pieces)).sum = pieces.flatten.length := by
  constructor
  · rw [CompressionFraming.decompress]
    exact decompressLoop_frame registry tag codec hreg hne pieces _
      (Nat.le_refl _) hrt
  · rw [declaredSizes_frame tag codec pieces _ (Nat.le_refl _)]
    simp [List.length_flatten]

/-- A concrete sample codec for the witnesses: compression prepends a marker
byte, decompression drops it. -/
def sampleCodec : Codec where
  compress := fun b => 7 :: b
  decompress := fun b _ => b.drop 1

/-- Witness for C5 at a concrete two-block payload. -/
theorem compression_round_trip_witness :
    CompressionFraming.decompress [(9, sampleCodec)]
        (frame 9 sampleCodec [[1, 2], [3]]) = .ok [1, 2, 3] ∧
    (declaredSizes (frame 9 sampleCodec [[1, 2], [3]]).length
        (frame 9 sampleCodec [[1, 2], [3]])).sum = 3 :=
  compression_round_trip [(9, sampleCodec)] 9 sampleCodec [[1, 2], [3]]
    (by rfl) (by decide) (by decide)

theorem decompressLoop_unregistered (registry : List (Nat × Codec))
    (tag usize f : Nat) (payload : Buffer)
    (hur : registry.lookup tag = none) (hne : tag ≠ noneTag) :
    decompressLoop registry (f + 1)
      (tag :: payload.length :: usize :: payload) =
      .error (.unregisteredTag tag) := by
  rw [decompressLoop]
  rw [if_pos (Nat.le_refl _)]
  have hblock : decodeBlock registry tag usize (payload.take payload.length) =
      .error (.unregisteredTag tag) := by
    rw [decodeBlock, if_neg hne, hur]
  rw [hblock]

theorem decompressLoop_passthrough (registry : List (Nat × Codec))
    (usize f : Nat) (payload : Buffer) :
    decompressLoop registry (f + 1)
      (noneTag :: payload.length :: usize :: payload) = .ok payload := by
  rw [decompressLoop]
  rw [if_pos (Nat.le_refl _)]
  have hblock : decodeBlock registry noneTag usize (payload.take payload.length) =
      .ok (payload.take payload.length) := by
    rw [decodeBlock, if_pos rfl]
  rw [hblock]
  simp [List.take_length, List.drop_length, decompressLoop]

/-- C7: a compression block whose header carries an algorithm tag with no
registered codec is a fatal decode error, except for the explicit
"no compression" tag, which passes the payload through. -/
theorem unregistered_tag_fatal (registry : List (Nat × Codec))
    (tag usize : Nat) (payload : Buffer)
    (hur : registry.lookup tag = none) (hne : tag ≠ noneTag) :
    CompressionFraming.decompress registry
        (tag :: payload.length :: usize :: payload) =
      .error (.unregisteredTag tag) ∧
    CompressionFraming.decompress registry
        (noneTag :: payload.length :: usize :: payload) = .ok payload := by
  constructor
  · have hlen : (tag :: payload.length :: usize :: payload).length =
        (payload.length + 2) + 1 := by simp
    rw [CompressionFraming.decompress, hlen]
    exact decompressLoop_unregistered registry tag usize _ payload hur hne
  · have hlen : (noneTag :: payload.length :: usize :: payload).length =
        (payload.length + 2) + 1 := by simp
    rw [CompressionFraming.decompress, hlen]
    exact decompressLoop_passthrough registry usize _ payload

/-- Witness for C7 at a concrete block with the unregistered tag 5. -/
theorem unregistered_tag_fatal_witness :
    CompressionFraming.decompress [(9, sampleCodec)] [5, 2, 2, 40, 41] =
      .error (.unregisteredTag 5) ∧
    CompressionFraming.decompress [(9, sampleCodec)] [0, 2, 2, 40, 41] =
      .ok [40, 41] :=
  unregistered_tag_fatal [(9, sampleCodec)] 5 2 [40, 41] (by rfl) (by decide)

/-! ## DecodeProcedure (spec 3, 4.5, 9) -/

/-- Modelled from the spec: the decode-step descriptors of the generated
instruction list (spec 4.5 and 9): "primitive scalar, fixed array,
self-describing sub-object ... each of which carries its own element-type
decode step", plus the length-prefixed byte string of spec 4.3.  A
sub-object carries the instruction list for its members and is preceded on
the wire by its own version header. -/
inductive DecodeStep where
  | primitive (width : Nat)
  | lengthPrefixedBytes
  | fixedArray (n : Nat) (elem : DecodeStep)
  | subObject (steps : List DecodeStep)

/-- Modelled from the spec: a decoded typed instance (spec 3,
`ModelInstance` graph node content): primitive data of a given width, a
length-prefixed byte string, a fixed array of elements, and a sub-object
with its stream version and decoded fields. -/
inductive Value where
  | prim (width : Nat) (data : Buffer)
  | bytes (data : Buffer)
  | arr (elems : List Value)
  | obj (version : Nat) (fields : List Value)

mutual
/-- The number of bytes a decoded object occupied on the wire, "including any
internal ownership/version header" (spec 3): a primitive occupies its width,
a length-prefixed byte string its 4-byte length prefix plus its data, an
array the sum over its elements, and a sub-object its 2-byte version header
plus the sum over its fields. -/
def Value.byteSize : Value → Nat
  | .prim w _ => w
  | .bytes d => 4 + d.length
  | .arr es => Value.byteSizeList es
  | .obj _ fs => 2 + Value.byteSizeList fs

/-- The bytes occupied by a list of decoded values, member by member. -/
def Value.byteSizeList : List Value → Nat
  | [] => 0
  | v :: vs => Value.byteSize v + Value.byteSizeList vs
end

/-- Modelled from the spec: the big-endian integer value of a byte span (used
for the version and length headers of spec 4.5/4.6). -/
def beValue (bytes : Buffer) : Nat :=
  bytes.foldl (fun acc b => acc * 256 + b) 0

mutual
/-- Modelled from the spec: interpretation of one decode step against a
Cursor (spec 4.5 and 9): a primitive reads its width; a length-prefixed byte
string reads a 4-byte length then that many bytes; a fixed array decodes its
element step a fixed number of times; a sub-object reads its own 2-byte
version header then its member steps. -/
def decodeStep (buf : Buffer) :
    DecodeStep → Cursor → Except OverrunError (Value × Cursor)
  | .primitive w, c =>
    match c.readBytes buf w with
    | .error e => .error e
    | .ok (data, c') => .ok (.prim w data, c')
  | .lengthPrefixedBytes, c =>
    match c.readBytes buf 4 with
    | .error e => .error e
    | .ok (lenBytes, c') =>
      match c'.readBytes buf (beValue lenBytes) with
      | .error e => .error e
      | .ok (data, c'') => .ok (.bytes data, c'')
  | .fixedArray n elem, c =>
    match decodeArray buf n elem c with
    | .error e => .error e
    | .ok (vs, c') => .ok (.arr vs, c')
  | .subObject steps, c =>
    match c.readBytes buf 2 with
    | .error e => .error e
    | .ok (vbytes, c') =>
      match decodeList buf steps c' with
      | .error e => .error e
      | .ok (fields, c'') => .ok (.obj (beValue vbytes) fields, c'')
termination_by s _ => sizeOf s

/-- Modelled from the spec: decoding a fixed number of array elements. -/
def decodeArray (buf : Buffer) :
    Nat → DecodeStep → Cursor → Except OverrunError (List Value × Cursor)
  | 0, _, c => .ok ([], c)
  | n + 1, elem, c =>
    match decodeStep buf elem c with
    | .error e => .error e
    | .ok (v, c') =>
      match decodeArray buf n elem c' with
      | .error e => .error e
      | .ok (vs, c'') => .ok (v :: vs, c'')
termination_by n elem _ => n + sizeOf elem

/-- Modelled from the spec: decoding the members of an instruction list in
order, threading the Cursor. -/
def decodeList (buf : Buffer) :
    List DecodeStep → Cursor → Except OverrunError (List Value × Cursor)
  | [], c => .ok ([], c)
  | s :: rest, c =>
    match decodeStep buf s c with
    | .error e => .error e
    | .ok (v, c') =>
      match decodeList buf rest c' with
      | .error e => .error e
      | .ok (vs, c'') => .ok (v :: vs, c'')
termination_by l _ => sizeOf l
end

/-- Modelled from the spec: a generated `DecodeProcedure`, "keyed by (class
name, version)" (spec 3): the class it decodes, the version it was generated
from, and its instruction list (spec 9). -/
structure DecodeProcedure where
  className : String
  version : Nat
  steps : List DecodeStep

/-- Modelled from the spec: applying a DecodeProcedure to a Cursor: the
version header owned by the object followed by its members (spec 4.5/4.6),
i.e. a sub-object decode of the instruction list of the procedure. -/
def applyProcedure (proc : DecodeProcedure) (buf : Buffer) (c : Cursor) :
    Except OverrunError (Value × Cursor) :=
  decodeStep buf (.subObject proc.steps) c

theorem readBytes_ok {c : Cursor} {buf : Buffer} {k : Nat} {data : Buffer}
    {c' : Cursor} (h : c.readBytes buf k = .ok (data, c')) :
    c'.pos = c.pos + k ∧ data.length = k := by
  unfold Cursor.readBytes at h
  split at h
  next hle =>
    simp only [Except.ok.injEq, Prod.mk.injEq] at h
    obtain ⟨hdata, hc⟩ := h
    constructor
    · rw [← hc]
    · rw [← hdata]; simp; omega
  next hle => simp at h

theorem decodeStep_advance (buf : Buffer) :
    ∀ (s : DecodeStep) (c : Cursor) (v : Value) (c' : Cursor),
      decodeStep buf s c = .ok (v, c') → c'.pos = c.pos + v.byteSize := by
  apply decodeStep.induct buf
    (fun s c => ∀ v c', decodeStep buf s c = .ok (v, c') →
      c'.pos = c.pos + v.byteSize)
    (fun l c => ∀ vs c', decodeList buf l c = .ok (vs, c') →
      c'.pos = c.pos + Value.byteSizeList vs)
    (fun n elem c => ∀ vs c', decodeArray buf n elem c = .ok (vs, c') →
      c'.pos = c.pos + Value.byteSizeList vs)
  · intro w c e hrd v c'' h
    simp only [decodeStep, hrd] at h
    exact Except.noConfusion h
  · intro w c data c' hrd v c'' h
    simp only [decodeStep, hrd, Except.ok.injEq, Prod.mk.injEq] at h
    obtain ⟨hv, hc⟩ := h
    obtain ⟨hpos, hlen⟩ := readBytes_ok hrd
    rw [← hv, ← hc]
    simp [Value.byteSize]
    omega
  · intro c e hrd v c'' h
    simp only [decodeStep, hrd] at h
    exact Except.noConfusion h
  · intro c data c' hrd4 e hrdl v c'' h
    simp only [decodeStep, hrd4, hrdl] at h
    exact Except.noConfusion h
  · intro c data c' hrd4 data1 c'1 hrdl v c'' h
    simp only [decodeStep, hrd4, hrdl, Except.ok.injEq, Prod.mk.injEq] at h
    obtain ⟨hv, hc⟩ := h
    obtain ⟨hpos4, hlen4⟩ := readBytes_ok hrd4
    obtain ⟨hposl, hlenl⟩ := readBytes_ok hrdl
    rw [← hv, ← hc]
    simp [Value.byteSize]
    omega
  · intro n elem c e hda ih v c'' h
    simp only [decodeStep, hda] at h
    exact Except.noConfusion h
  · intro n elem c vs c' hda ih v c'' h
    simp only [decodeStep, hda, Except.ok.injEq, Prod.mk.injEq] at h
    obtain ⟨hv, hc⟩ := h
    have := ih vs c' hda
    rw [← hv, ← hc]
    simp [Value.byteSize]
    omega
  · intro steps c e hrd2 v c'' h
    simp only [decodeStep, hrd2] at h
    exact Except.noConfusion h
  · intro steps c data c' hrd2 e hdl ih v c'' h
    simp only [decodeStep, hrd2, hdl] at h
    exact Except.noConfusion h
  · intro steps c data c' hrd2 vs c'1 hdl ih v c'' h
    simp only [decodeStep, hrd2, hdl, Except.ok.injEq, Prod.mk.injEq] at h
    obtain ⟨hv, hc⟩ := h
    obtain ⟨hpos2, hlen2⟩ := readBytes_ok hrd2
    have := ih vs c'1 hdl
    rw [← hv, ← hc]
    simp [Value.byteSize]
    omega
  · intro c vs c'' h
    simp only [decodeList, Except.ok.injEq, Prod.mk.injEq] at h
    obtain ⟨hv, hc⟩ := h
    rw [← hv, ← hc]
    simp [Value.byteSizeList]
  · intro s rest c e hds ih vs c'' h
    simp only [decodeList, hds] at h
    exact Except.noConfusion h
  · intro s rest c v c' hds e hdl ih1 ih2 vs c'' h
    simp only [decodeList, hds, hdl] at h
    exact Except.noConfusion h
  · intro s rest c v c' hds vs c'1 hdl ih1 ih2 vs0 c'' h
    simp only [decodeList, hds, hdl, Except.ok.injEq, Prod.mk.injEq] at h
    obtain ⟨hv, hc⟩ := h
    have h1 := ih1 v c' hds
    have h2 := ih2 vs c'1 hdl
    rw [← hv, ← hc]
    simp [Value.byteSizeList]
    omega
  · intro x c vs c'' h
    simp only [decodeArray, Except.ok.injEq, Prod.mk.injEq] at h
    obtain ⟨hv, hc⟩ := h
    rw [← hv, ← hc]
    simp [Value.byteSizeList]
  · intro n elem c e hds ih vs c'' h
    simp only [decodeArray, hds] at h
    exact Except.noConfusion h
  · intro n elem c v c' hds e hda ih1 ih2 vs c'' h
    simp only [decodeArray, hds, hda] at h
    exact Except.noConfusion h
  · intro n elem c v c' hds vs c'1 hda ih1 ih2 vs0 c'' h
    simp only [decodeArray, hds, hda, Except.ok.injEq, Prod.mk.injEq] at h
    obtain ⟨hv, hc⟩ := h
    have h1 := ih1 v c' hds
    have h2 := ih2 vs c'1 hda
    rw [← hv, ← hc]
    simp [Value.byteSizeList]
    omega

/-- C6: applying a DecodeProcedure advances the Cursor by exactly the number
of bytes the decoded object occupied, including its internal version
header. -/
theorem apply_procedure_advances (proc : DecodeProcedure) (buf : Buffer)
    (c : Cursor) (v : Value) (c' : Cursor)
    (h : applyProcedure proc buf c = .ok (v, c')) :
    c'.pos = c.pos + v.byteSize :=
  decodeStep_advance buf (.subObject proc.steps) c v c' h

/-- Witness for C6: a two-member procedure (a 4-byte primitive and a
length-prefixed byte string) applied at a concrete 12-byte object. -/
theorem apply_procedure_advances_witness :
    applyProcedure ⟨"TThing", 1, [.primitive 4, .lengthPrefixedBytes]⟩
        [0, 1, 1, 2, 3, 4, 0, 0, 0, 2, 7, 8] ⟨0⟩ =
      .ok (.obj 1 [.prim 4 [1, 2, 3, 4], .bytes [7, 8]], ⟨12⟩) ∧
    (⟨12⟩ : Cursor).pos = (⟨0⟩ : Cursor).pos +
      (Value.obj 1 [.prim 4 [1, 2, 3, 4], .bytes [7, 8]]).byteSize := by
  have hw : applyProcedure ⟨"TThing", 1, [.primitive 4, .lengthPrefixedBytes]⟩
      [0, 1, 1, 2, 3, 4, 0, 0, 0, 2, 7, 8] ⟨0⟩ =
      .ok (.obj 1 [.prim 4 [1, 2, 3, 4], .bytes [7, 8]], ⟨12⟩) := by
    simp [applyProcedure, decodeStep, decodeList, Cursor.readBytes, beValue]
  exact ⟨hw, apply_procedure_advances _ _ _ _ _ hw⟩

/-! ## SchemaRegistry (spec 4.5) -/

/-- Modelled from the spec: a `StreamerDescriptor`, "one versioned class
layout: class name, version number, ordered list of member descriptors ...
and optionally the descriptor of a base class" (spec 3); a base class is
named by (class name, version), members carry their name and decode step.
The implementation (`uproot.streamers`) is absent from src/, which only
re-exports the model machinery. -/
structure StreamerDescriptor where
  className : String
  version : Nat
  base : Option (String × Nat)
  members : List (String × DecodeStep)

/-- Modelled from the spec: resolution of the base-class chain (spec 4.5):
"resolve the base-class chain transitively" (a class descriptor names zero
or one base class), prepending the steps of the base to the member steps.  The
fuel bounds the chain length; a missing base descriptor or an over-long
chain fails. -/
def resolveSteps (descriptors : List StreamerDescriptor) :
    Nat → StreamerDescriptor → Option (List DecodeStep)
  | 0, _ => none
  | fuel + 1, d =>
    match d.base with
    | none => some (d.members.map Prod.snd)
    | some (bn, bv) =>
      match descriptors.find? (fun b => b.className == bn && b.version == bv) with
      | none => none
      | some b =>
          match resolveSteps descriptors fuel b with
          | none => none
          | some baseSteps => some (baseSteps ++ d.members.map Prod.snd)

/-- Modelled from the spec: generation of a `DecodeProcedure` from a
StreamerDescriptor (spec 4.5/9): the instruction list is the resolved base
chain followed by the member steps, keyed by the class name and
version. -/
def generate (descriptors : List StreamerDescriptor)
    (d : StreamerDescriptor) : Option DecodeProcedure :=
  match resolveSteps descriptors (descriptors.length + 1) d with
  | none => none
  | some steps => some ⟨d.className, d.version, steps⟩

/-- Modelled from the spec: the `SchemaRegistry`, "one registry per source
file" (spec 2): the registered descriptors and the memoization table of
generated procedures keyed by (class name, version) (spec 4.5). -/
structure SchemaRegistry where
  descriptors : List StreamerDescriptor
  memo : List ((String × Nat) × DecodeProcedure)

/-- Modelled from the spec: the empty registry. -/
def SchemaRegistry.empty : SchemaRegistry := ⟨[], []⟩

/-- Modelled from the spec: `register(descriptor)` at file-open time
(spec 4.5). -/
def SchemaRegistry.register (reg : SchemaRegistry)
    (d : StreamerDescriptor) : SchemaRegistry :=
  { reg with descriptors := reg.descriptors ++ [d] }

/-- Modelled from the spec: `procedure_for(class_name, version) ->
DecodeProcedure, generating and memoizing on first call" (spec 4.5); absence
of a matching descriptor for the requested (class, version) yields no
procedure (SchemaError, spec 7). -/
def SchemaRegistry.procedureFor (reg : SchemaRegistry) (name : String)
    (ver : Nat) : Option DecodeProcedure × SchemaRegistry :=
  match reg.memo.lookup (name, ver) with
  | some proc => (some proc, reg)
  | none =>
    match reg.descriptors.find?
        (fun d => d.className == name && d.version == ver) with
    | none => (none, reg)
    | some d =>
        match generate reg.descriptors d with
        | none => (none, reg)
        | some proc =>
            (some proc, { reg with memo := ((name, ver), proc) :: reg.memo })

/-- Modelled from the spec: the version "actually present in the byte
stream per-object header (spec 4.5): the 2-byte big-endian version read
from the header of the object itself. -/
def streamVersion (buf : Buffer) (c : Cursor) : Except OverrunError Nat :=
  match Cursor.readBytes c buf 2 with
  | .error e => .error e
  | .ok (vb, _) => .ok (beValue vb)

/-- Modelled from the spec: procedure selection for an encoded object
(spec 4.5/4.6): the version read from the per-object header — not any
"current" version — keys the `procedure_for` request. -/
def selectProcedure (reg : SchemaRegistry) (name : String) (buf : Buffer)
    (c : Cursor) : Except OverrunError (Option DecodeProcedure × SchemaRegistry) :=
  match streamVersion buf c with
  | .error e => .error e
  | .ok v => .ok (reg.procedureFor name v)

theorem procedureFor_descriptors (reg : SchemaRegistry) (name : String)
    (ver : Nat) :
    ((reg.procedureFor name ver).2).descriptors = reg.descriptors := by
  unfold SchemaRegistry.procedureFor
  split
  · rfl
  · split
    · rfl
    · split
      · rfl
      · rfl

theorem procedureFor_memo_lookup_other (reg : SchemaRegistry)
    (name : String) (ver : Nat) (key : String × Nat)
    (hne : key ≠ (name, ver)) (hm : reg.memo.lookup key = none) :
    ((reg.procedureFor name ver).2).memo.lookup key = none := by
  unfold SchemaRegistry.procedureFor
  split
  · exact hm
  · split
    · exact hm
    · split
      · exact hm
      · have hbeq : (key == (name, ver)) = false := by
          simp [hne]
        simp only [List.lookup, hbeq]
        exact hm

/-- C1: with StreamerDescriptors for the same class name registered at
versions 1 and 2, and after the version-2 procedure has been generated and
memoized, an object whose per-object header declares version 1 selects the
procedure generated from the version-1 descriptor — the stream version, not
the current version of the registry, selects the procedure — and that procedure
carries version 1. -/
theorem version_resolution (d1 d2 : StreamerDescriptor)
    (hname : d2.className = d1.className)
    (hv1 : d1.version = 1) (hv2 : d2.version = 2)
    (buf : Buffer) (c : Cursor)
    (hdr : streamVersion buf c = .ok 1) :
    (selectProcedure
        (((SchemaRegistry.empty.register d1).register d2).procedureFor
          d1.className 2).2
        d1.className buf c).map Prod.fst =
      .ok (generate ((SchemaRegistry.empty.register d1).register d2).descriptors d1) ∧
    ∀ p, generate ((SchemaRegistry.empty.register d1).register d2).descriptors d1 =
        some p → p.version = 1 ∧ p.className = d1.className := by
  constructor
  · unfold selectProcedure
    rw [hdr]
    dsimp only
    set reg0 := (SchemaRegistry.empty.register d1).register d2 with hreg0
    set reg1 := (reg0.procedureFor d1.className 2).2 with hreg1
    have hdesc : reg1.descriptors = [d1, d2] := by
      rw [hreg1, procedureFor_descriptors]
      simp [hreg0, SchemaRegistry.register, SchemaRegistry.empty]
    have hmemo : reg1.memo.lookup (d1.className, 1) = none := by
      rw [hreg1]
      apply procedureFor_memo_lookup_other
      · simp
      · simp [hreg0, SchemaRegistry.register, SchemaRegistry.empty, List.lookup]
    have hfind : reg1.descriptors.find?
        (fun d => d.className == d1.className && d.version == 1) = some d1 := by
      rw [hdesc]
      simp [List.find?, hv1]
    have hdesc2 : reg1.descriptors = reg0.descriptors := by
      rw [hreg1, procedureFor_descriptors]
    unfold SchemaRegistry.procedureFor
    rw [hmemo]
    dsimp only
    rw [hfind]
    dsimp only
    rw [hdesc2]
    cases hgen : generate reg0.descriptors d1 with
    | none => rfl
    | some p => rfl
  · intro p hp
    unfold generate at hp
    split at hp
    · exact Option.noConfusion hp
    · injection hp with hp1
      rw [← hp1]
      exact ⟨hv1, rfl⟩

/-- Witness for C1 at two concrete descriptors of class "TThing" and a
concrete header declaring version 1. -/
theorem version_resolution_witness :
    (selectProcedure
        (((SchemaRegistry.empty.register
              ⟨"TThing", 1, none, [("a", .primitive 4)]⟩).register
            ⟨"TThing", 2, none, [("a", .primitive 4), ("b", .lengthPrefixedBytes)]⟩).procedureFor
          "TThing" 2).2
        "TThing" [0, 1, 9, 9, 9, 9] ⟨0⟩).map Prod.fst =
      .ok (generate
        ((SchemaRegistry.empty.register
            ⟨"TThing", 1, none, [("a", .primitive 4)]⟩).register
          ⟨"TThing", 2, none, [("a", .primitive 4), ("b", .lengthPrefixedBytes)]⟩).descriptors
        ⟨"TThing", 1, none, [("a", .primitive 4)]⟩) :=
  (version_resolution ⟨"TThing", 1, none, [("a", .primitive 4)]⟩
    ⟨"TThing", 2, none, [("a", .primitive 4), ("b", .lengthPrefixedBytes)]⟩
    rfl rfl rfl [0, 1, 9, 9, 9, 9] ⟨0⟩
    (by simp [streamVersion, Cursor.readBytes, beValue])).1

/-! ## DeserializationEngine: unknown classes (spec 4.6) -/

/-- Modelled from the spec: a decoded `ModelInstance`, the "unreadable
object" placeholder "carrying the raw undecoded bytes and the class name"
(spec 4.6; `unknown_classes` at src/uproot/__init__.py line 80 collects such
placeholder classes), or a corrupt object (FormatError, spec 7). -/
inductive ModelInstance where
  | decoded (className : String) (value : Value)
  | unreadable (className : String) (rawBytes : Buffer)
  | corrupt (className : String) (err : OverrunError)

/-- Modelled from the spec: `read_object` for one object of a containing
structure (spec 4.6): read the per-object header, obtain a DecodeProcedure
from the registry and apply it; "unknown classes (no descriptor found and no
built-in) must not abort the whole read: the engine returns an explicit
unreadable-object placeholder". -/
def readOne (reg : SchemaRegistry) (obj : String × Buffer) :
    ModelInstance × SchemaRegistry :=
  match selectProcedure reg obj.1 obj.2 ⟨0⟩ with
  | .error e => (.corrupt obj.1 e, reg)
  | .ok (none, reg') => (.unreadable obj.1 obj.2, reg')
  | .ok (some proc, reg') =>
      match applyProcedure proc obj.2 ⟨0⟩ with
      | .error e => (.corrupt obj.1 e, reg')
      | .ok (v, _) => (.decoded obj.1 v, reg')

/-- Modelled from the spec: reading every object of a containing structure
(spec 4.6/7): each sibling is decoded against the registry; one unreadable
sub-object does not invalidate the others. -/
def readAll (reg : SchemaRegistry) (objects : List (String × Buffer)) :
    List ModelInstance :=
  objects.map (fun o => (readOne reg o).1)

/-- C2: an object whose class has no matching descriptor (and no built-in)
does not abort the read: its result is the explicit "unreadable object"
placeholder carrying the class name and the raw undecoded bytes, the
containing structure keeps its length, and every sibling decodes exactly as
it would alone. -/
theorem unknown_class_placeholder (reg : SchemaRegistry)
    (objects : List (String × Buffer)) (i : Nat) (name : String)
    (raw : Buffer) (ver : Nat)
    (hobj : objects[i]? = some (name, raw))
    (hdr : streamVersion raw ⟨0⟩ = .ok ver)
    (hmemo : reg.memo.lookup (name, ver) = none)
    (hfind : reg.descriptors.find?
      (fun d => d.className == name && d.version == ver) = none) :
    (readAll reg objects)[i]? = some (.unreadable name raw) ∧
    (readAll reg objects).length = objects.length ∧
    ∀ (j : Nat) (obj : String × Buffer), objects[j]? = some obj →
      (readAll reg objects)[j]? = some ((readOne reg obj).1) := by
  have hone : (readOne reg (name, raw)).1 = .unreadable name raw := by
    unfold readOne selectProcedure
    dsimp only
    rw [hdr]
    dsimp only
    unfold SchemaRegistry.procedureFor
    rw [hmemo]
    dsimp only
    rw [hfind]
  refine ⟨?_, ?_, ?_⟩
  · unfold readAll
    rw [List.getElem?_map, hobj]
    simp [hone]
  · unfold readAll
    simp
  · intro j obj hj
    unfold readAll
    rw [List.getElem?_map, hj]
    rfl

/-- Witness for C2: a two-object structure where the class of the first object,
"TUnknown" has no descriptor: it becomes the placeholder while the sibling
still decodes exactly as it would alone. -/
theorem unknown_class_placeholder_witness :
    (readAll ⟨[⟨"TThing", 1, none, [("a", .primitive 4)]⟩], []⟩
        [("TUnknown", [0, 1, 5, 5]), ("TThing", [0, 1, 1, 2, 3, 4])])[0]? =
      some (.unreadable "TUnknown" [0, 1, 5, 5]) ∧
    (readAll ⟨[⟨"TThing", 1, none, [("a", .primitive 4)]⟩], []⟩
        [("TUnknown", [0, 1, 5, 5]), ("TThing", [0, 1, 1, 2, 3, 4])])[1]? =
      some ((readOne ⟨[⟨"TThing", 1, none, [("a", .primitive 4)]⟩], []⟩
        ("TThing", [0, 1, 1, 2, 3, 4])).1) :=
  ⟨(unknown_class_placeholder ⟨[⟨"TThing", 1, none, [("a", .primitive 4)]⟩], []⟩
      [("TUnknown", [0, 1, 5, 5]), ("TThing", [0, 1, 1, 2, 3, 4])] 0
      "TUnknown" [0, 1, 5, 5] 1 (by rfl)
      (by simp [streamVersion, Cursor.readBytes, beValue]) (by rfl) (by rfl)).1,
   (unknown_class_placeholder ⟨[⟨"TThing", 1, none, [("a", .primitive 4)]⟩], []⟩
      [("TUnknown", [0, 1, 5, 5]), ("TThing", [0, 1, 1, 2, 3, 4])] 0
      "TUnknown" [0, 1, 5, 5] 1 (by rfl)
      (by simp [streamVersion, Cursor.readBytes, beValue]) (by rfl) (by rfl)).2.2
     1 ("TThing", [0, 1, 1, 2, 3, 4]) (by rfl)⟩

/-! ## behavior_of (src/uproot/__init__.py lines 171-216) -/

/-- A behavior class object; only its identity matters here. -/
structure BehaviorClass where
  id : Nat
deriving Repr, DecidableEq

/-- A lowercase hex digit. -/
def hexDigit (n : Nat) : Char :=
  if n < 10 then Char.ofNat (48 + n) else Char.ofNat (87 + n)

/-- The two lowercase hex digits of a byte. -/
def hexByte (n : Nat) : List Char :=
  [hexDigit ((n % 256) / 16), hexDigit (n % 16)]

mutual
/-- Modelled from the spec: the character escape of
`uproot.model.classname_encode`, absent from src/: alphanumeric characters
pass through; a maximal run of other characters becomes one
underscore-delimited run of two-hex-digit codes, as in the behavior_of
docstring (src/uproot/__init__.py lines 181-183): "ROOT::RThing" becomes
"Model_ROOT_3a3a_RThing". -/
def escapeChars : List Char → List Char
  | [] => []
  | c :: rest =>
    if c.isAlphanum then c :: escapeChars rest
    else '_' :: (hexByte c.toNat ++ escapeInRun rest)

/-- The escape while inside a non-alphanumeric run. -/
def escapeInRun : List Char → List Char
  | [] => ['_']
  | c :: rest =>
    if c.isAlphanum then '_' :: c :: escapeChars rest
    else hexByte c.toNat ++ escapeInRun rest
end

/-- Modelled from the spec: `uproot.model.classname_encode` (imported at
src/uproot/__init__.py line 112, implementation absent from src/):
"Translate the ROOT class name from C++ to Python", prepending "Model_"
(behavior_of docstring, lines 181-183). -/
def classname_encode (classname : String) : String :=
  String.mk ("Model_".data ++ escapeChars classname.data)

/-- The state behavior_of reads and writes: the uproot module globals (a
Python dict whose names may be bound to None), the precomputed
`behavior_of._module_names` (src lines 211-214), the classes the
`uproot.behaviors` submodules hold under their own name
(`getattr(module, name, None)`, line 204), and a count of executed
submodule-import statements (lines 197-202). -/
structure UprootState where
  globalsMap : List (String × Option BehaviorClass)
  moduleNames : List String
  modules : String → Option BehaviorClass
  importCount : Nat

/-- The Python membership test of `name in globals()` (src line 195). -/
def pyContains (g : List (String × Option BehaviorClass)) (k : String) : Bool :=
  (g.lookup k).isSome

/-- The Python dict read `globals().get(name)` (src line 208). -/
def pyGet (g : List (String × Option BehaviorClass)) (k : String) :
    Option BehaviorClass :=
  match g.lookup k with
  | none => none
  | some v => v

/-- The body of behavior_of after the assert (src lines 195-208): if `name`
is not in the module globals and is among the behaviors submodule names,
run the submodule import (counted) and, when it has a class named `name`, bind
it in globals; finally return `globals().get(name)`. -/
def behaviorLookup (st : UprootState) (name : String) :
    Option BehaviorClass × UprootState :=
  if pyContains st.globalsMap name then
    (pyGet st.globalsMap name, st)
  else if name ∈ st.moduleNames then
    match st.modules name with
    | some cls =>
        (some cls,
          { st with
            importCount := st.importCount + 1
            globalsMap := (name, some cls) :: st.globalsMap })
    | none => (none, { st with importCount := st.importCount + 1 })
  else (none, st)

/-- The function behavior_of (src/uproot/__init__.py lines 171-208): encode
the classname, assert the "Model_" prefix (modelled as an Except error),
strip it, and look the stripped name up per `behaviorLookup`. -/
def behavior_of (st : UprootState) (classname : String) :
    Except String (Option BehaviorClass × UprootState) :=
  if (classname_encode classname).data.take 6 = "Model_".data then
    .ok (behaviorLookup st
      (String.mk ((classname_encode classname).data.drop 6)))
  else .error "AssertionError"

/-- The assert at src line 192 always passes: every encoded name starts with
"Model_". -/
theorem classname_encode_startswith (classname : String) :
    (classname_encode classname).data.take 6 = "Model_".data := by
  have hdata : (classname_encode classname).data =
      "Model_".data ++ escapeChars classname.data := rfl
  rw [hdata]
  have h6 : "Model_".data.length = 6 := rfl
  rw [← h6, List.take_left]

/-- C9: a classname whose encoded name (with "Model_" stripped) is neither
bound in the module globals nor among the `uproot.behaviors` submodule
names makes behavior_of return None without raising (the assert always
passes) and without touching the state. -/
theorem behavior_of_unknown_none (st : UprootState) (classname : String)
    (hg : pyContains st.globalsMap
      (String.mk ((classname_encode classname).data.drop 6)) = false)
    (hm : String.mk ((classname_encode classname).data.drop 6) ∉ st.moduleNames) :
    behavior_of st classname = .ok (none, st) := by
  unfold behavior_of
  rw [if_pos (classname_encode_startswith classname)]
  unfold behaviorLookup
  rw [if_neg (by simp [hg])]
  rw [if_neg hm]

/-- Witness for C9: the classname "TWeird" against an empty state. -/
theorem behavior_of_unknown_none_witness :
    behavior_of ⟨[], [], fun _ => none, 0⟩ "TWeird" =
      .ok (none, ⟨[], [], fun _ => none, 0⟩) :=
  behavior_of_unknown_none ⟨[], [], fun _ => none, 0⟩ "TWeird"
    (by rfl) (by simp)

theorem behaviorLookup_idem (st : UprootState) (name : String)
    (r1 : Option BehaviorClass) (st1 : UprootState)
    (h : behaviorLookup st name = (r1, st1)) :
    (∃ st2, behaviorLookup st1 name = (r1, st2)) ∧
    (∀ cls, r1 = some cls →
      behaviorLookup st1 name = (some cls, st1) ∧
      pyGet st1.globalsMap name = some cls) := by
  unfold behaviorLookup at h
  by_cases hc : pyContains st.globalsMap name = true
  · rw [if_pos hc] at h
    simp only [Prod.mk.injEq] at h
    obtain ⟨hr, hst⟩ := h
    have hsecond : behaviorLookup st1 name = (pyGet st1.globalsMap name, st1) := by
      unfold behaviorLookup
      rw [if_pos (by rw [← hst]; exact hc)]
    have hget : pyGet st1.globalsMap name = r1 := by rw [← hst]; exact hr
    constructor
    · exact ⟨st1, by rw [hsecond, hget]⟩
    · intro cls hcls
      exact ⟨by rw [hsecond, hget, hcls], by rw [hget, hcls]⟩
  · rw [if_neg hc] at h
    by_cases hmem : name ∈ st.moduleNames
    · rw [if_pos hmem] at h
      cases hmod : st.modules name with
      | some cls0 =>
          rw [hmod] at h
          simp only [Prod.mk.injEq] at h
          obtain ⟨hr, hst⟩ := h
          have hgl : st1.globalsMap = (name, some cls0) :: st.globalsMap := by
            rw [← hst]
          have hc1 : pyContains st1.globalsMap name = true := by
            rw [hgl]
            simp [pyContains, List.lookup]
          have hget : pyGet st1.globalsMap name = some cls0 := by
            rw [hgl]
            simp [pyGet, List.lookup]
          have hsecond : behaviorLookup st1 name =
              (pyGet st1.globalsMap name, st1) := by
            unfold behaviorLookup
            rw [if_pos hc1]
          constructor
          · exact ⟨st1, by rw [hsecond, hget, ← hr]⟩
          · intro cls hcls
            have hcc : cls0 = cls := by
              rw [← hr] at hcls
              exact Option.some.inj hcls
            exact ⟨by rw [hsecond, hget, hcc], by rw [hget, hcc]⟩
      | none =>
          rw [hmod] at h
          simp only [Prod.mk.injEq] at h
          obtain ⟨hr, hst⟩ := h
          have hgl : st1.globalsMap = st.globalsMap := by rw [← hst]
          have hmn : st1.moduleNames = st.moduleNames := by rw [← hst]
          have hms : st1.modules = st.modules := by rw [← hst]
          have hsecond : behaviorLookup st1 name =
              (none, { st1 with importCount := st1.importCount + 1 }) := by
            unfold behaviorLookup
            rw [if_neg (by rw [hgl]; exact hc)]
            rw [if_pos (by rw [hmn]; exact hmem)]
            rw [hms, hmod]
          constructor
          · exact ⟨_, by rw [hsecond, ← hr]⟩
          · intro cls hcls
            rw [← hr] at hcls
            exact Option.noConfusion hcls
    · rw [if_neg hmem] at h
      simp only [Prod.mk.injEq] at h
      obtain ⟨hr, hst⟩ := h
      have hgl : st1.globalsMap = st.globalsMap := by rw [← hst]
      have hmn : st1.moduleNames = st.moduleNames := by rw [← hst]
      have hsecond : behaviorLookup st1 name = (none, st1) := by
        unfold behaviorLookup
        rw [if_neg (by rw [hgl]; exact hc)]
        rw [if_neg (by rw [hmn]; exact hmem)]
      constructor
      · exact ⟨st1, by rw [hsecond, ← hr]⟩
      · intro cls hcls
        rw [← hr] at hcls
        exact Option.noConfusion hcls

/-- C10: behavior_of is idempotent and caching: a second call for the same
classname returns the same result, and when the first call found a behavior
class, the class is bound in the module globals and the second call hits
that cached binding with the state unchanged — in particular no further
submodule import runs. -/
theorem behavior_of_idempotent_caching (st : UprootState) (classname : String)
    (r1 : Option BehaviorClass) (st1 : UprootState)
    (h : behavior_of st classname = .ok (r1, st1)) :
    (∃ st2, behavior_of st1 classname = .ok (r1, st2)) ∧
    (∀ cls, r1 = some cls →
      behavior_of st1 classname = .ok (some cls, st1) ∧
      pyGet st1.globalsMap
        (String.mk ((classname_encode classname).data.drop 6)) = some cls) := by
  have hpre := classname_encode_startswith classname
  unfold behavior_of at h
  rw [if_pos hpre] at h
  simp only [Except.ok.injEq] at h
  have hl := behaviorLookup_idem st
    (String.mk ((classname_encode classname).data.drop 6)) r1 st1 h
  constructor
  · obtain ⟨st2, h2⟩ := hl.1
    refine ⟨st2, ?_⟩
    unfold behavior_of
    rw [if_pos hpre, h2]
  · intro cls hcls
    obtain ⟨h2, h3⟩ := hl.2 cls hcls
    refine ⟨?_, h3⟩
    unfold behavior_of
    rw [if_pos hpre, h2]

/-- Witness for C10: a first call that finds the class "TDemo" through the
behaviors submodule; the second call returns it from the cached binding with
the state unchanged. -/
theorem behavior_of_idempotent_caching_witness :
    behavior_of
        ⟨[("TDemo", some ⟨42⟩)], ["TDemo"],
          fun n => if n = "TDemo" then some ⟨42⟩ else none, 1⟩ "TDemo" =
      .ok (some ⟨42⟩,
        ⟨[("TDemo", some ⟨42⟩)], ["TDemo"],
          fun n => if n = "TDemo" then some ⟨42⟩ else none, 1⟩) ∧
    pyGet [("TDemo", some ⟨42⟩)] "TDemo" = some ⟨42⟩ :=
  (behavior_of_idempotent_caching
    ⟨[], ["TDemo"], fun n => if n = "TDemo" then some ⟨42⟩ else none, 0⟩
    "TDemo" (some ⟨42⟩)
    ⟨[("TDemo", some ⟨42⟩)], ["TDemo"],
      fun n => if n = "TDemo" then some ⟨42⟩ else none, 1⟩
    (by rfl)).2 ⟨42⟩ rfl

end Uproot
